import Mathlib

/-!
Verification of the event-detection core of the repository
(`src/agent.py`, `src/memory.py`) via a shallow embedding in Lean 4.

Conventions of the embedding:
* Python strings are `String`, Python lists are `List`, Python dicts with
  string keys are association lists whose update keeps the first position
  of an existing key (Python dicts have unique keys and preserve insertion
  order).
* Python `s1 in s2` on strings is substring containment over code points.
* Python truthiness of a string is nonemptiness.
* `hashlib.sha256` is embedded as a full SHA-256 implementation over byte
  lists (naturals below 256), with 32-bit words as naturals reduced
  modulo 2 ^ 32.
* The LLM agent, an external nondeterministic collaborator, is an oracle
  `Nat → AgentRound` giving, for each attempt index, the structured-or-raw
  output together with the recorded action trace.  The Pydantic parser
  applied to raw text is likewise external; its outcome is carried in the
  oracle as `Option EventList` (`none` models a parse exception).
* A Python function that can raise is embedded with `Except Unit`.
-/

namespace EventAgent

/-- Substring containment: `strContains hay pat = true` iff `pat` occurs
contiguously in `hay`; embeds the Python expression `pat in hay`. -/
def strContains (hay pat : String) : Bool :=
  hay.toList.tails.any (fun t => pat.toList.isPrefixOf t)

/-- Characters stripped by Python `str.strip()` with no argument
(Unicode whitespace per `str.isspace`): code points 9-13, 28-31, space,
0x85, 0xa0, 0x1680, 0x2000-0x200a, 0x2028, 0x2029, 0x202f, 0x205f, 0x3000. -/
def pyIsSpace (c : Char) : Bool :=
  let n := c.toNat
  (0x9 <= n && n <= 0xd) || n = 0x20 || (0x1c <= n && n <= 0x1f) ||
  n = 0x85 || n = 0xa0 || n = 0x1680 || (0x2000 <= n && n <= 0x200a) ||
  n = 0x2028 || n = 0x2029 || n = 0x202f || n = 0x205f || n = 0x3000

/-- Python `str.strip()`: drop leading and trailing whitespace. -/
def pyStrip (s : String) : String :=
  String.mk (((s.toList.dropWhile pyIsSpace).reverse.dropWhile pyIsSpace).reverse)

/-- UTF-8 encoding of one scalar value, as bytes. -/
def utf8EncodeChar (c : Char) : List Nat :=
  let n := c.toNat
  if n < 0x80 then [n]
  else if n < 0x800 then [0xc0 + n / 64, 0x80 + n % 64]
  else if n < 0x10000 then
    [0xe0 + n / 4096, 0x80 + (n / 64) % 64, 0x80 + n % 64]
  else
    [0xf0 + n / 262144, 0x80 + (n / 4096) % 64, 0x80 + (n / 64) % 64,
      0x80 + n % 64]

/-- UTF-8 encoding of a string, as bytes; embeds Python `s.encode("utf-8")`. -/
def utf8Encode (s : String) : List Nat :=
  (s.toList.map utf8EncodeChar).flatten

/-! SHA-256 (FIPS 180-4), over byte lists, words as naturals mod 2 ^ 32. -/

/-- Reduce to a 32-bit word. -/
def w32 (x : Nat) : Nat := x % 4294967296

/-- Right rotation of a 32-bit word by `n` (for `x < 2 ^ 32`, `0 < n < 32`). -/
def rotr32 (n x : Nat) : Nat := x / 2 ^ n + w32 (x * 2 ^ (32 - n))

/-- SHA-256 round constants (decimal rendering of the FIPS 180-4
table). -/
def sha256K : List Nat :=
  [1116352408, 1899447441, 3049323471, 3921009573,
   961987163, 1508970993, 2453635748, 2870763221,
   3624381080, 310598401, 607225278, 1426881987,
   1925078388, 2162078206, 2614888103, 3248222580,
   3835390401, 4022224774, 264347078, 604807628,
   770255983, 1249150122, 1555081692, 1996064986,
   2554220882, 2821834349, 2952996808, 3210313671,
   3336571891, 3584528711, 113926993, 338241895,
   666307205, 773529912, 1294757372, 1396182291,
   1695183700, 1986661051, 2177026350, 2456956037,
   2730485921, 2820302411, 3259730800, 3345764771,
   3516065817, 3600352804, 4094571909, 275423344,
   430227734, 506948616, 659060556, 883997877,
   958139571, 1322822218, 1537002063, 1747873779,
   1955562222, 2024104815, 2227730452, 2361852424,
   2428436474, 2756734187, 3204031479, 3329325298]

/-- SHA-256 initial hash value (decimal rendering). -/
def sha256H0 : List Nat :=
  [1779033703, 3144134277, 1013904242, 2773480762,
   1359893119, 2600822924, 528734635, 1541459225]

/-- Big-endian byte expansion of `n` on `k` bytes. -/
def natToBytesBE (k n : Nat) : List Nat :=
  (List.range k).map (fun i => n / 2 ^ (8 * (k - 1 - i)) % 256)

/-- SHA-256 message padding: append `0x80`, zeros to 56 mod 64, and the
bit length on eight big-endian bytes. -/
def sha256Pad (msg : List Nat) : List Nat :=
  let z := (119 - msg.length % 64) % 64
  msg ++ [0x80] ++ List.replicate z 0 ++ natToBytesBE 8 (msg.length * 8)

/-- Split a byte list into 64-byte blocks, with structural recursion on
a fuel bound (one block consumes at least one byte, so the length is
enough fuel). -/
def chunks64Fuel : Nat → List Nat → List (List Nat)
  | 0, _ => []
  | _, [] => []
  | fuel + 1, l => l.take 64 :: chunks64Fuel fuel (l.drop 64)

/-- Split a byte list into 64-byte blocks. -/
def chunks64 (l : List Nat) : List (List Nat) :=
  chunks64Fuel l.length l

/-- SHA-256 message schedule: the 64 expanded words of one block. -/
def sha256Schedule (block : List Nat) : List Nat :=
  let w16 := (List.range 16).map (fun i =>
    block.getD (4 * i) 0 * 16777216 + block.getD (4 * i + 1) 0 * 65536 +
      block.getD (4 * i + 2) 0 * 256 + block.getD (4 * i + 3) 0)
  (List.range 48).foldl (fun w _ =>
    let n := w.length
    let x15 := w.getD (n - 15) 0
    let x2 := w.getD (n - 2) 0
    let s0 := rotr32 7 x15 ^^^ rotr32 18 x15 ^^^ (x15 >>> 3)
    let s1 := rotr32 17 x2 ^^^ rotr32 19 x2 ^^^ (x2 >>> 10)
    w ++ [w32 (w.getD (n - 16) 0 + s0 + w.getD (n - 7) 0 + s1)]) w16

/-- One SHA-256 compression step on the eight-word state. -/
def sha256Round (st : List Nat) (kw : Nat × Nat) : List Nat :=
  match st with
  | [a, b, c, d, e, f, g, hh] =>
    let s1 := rotr32 6 e ^^^ rotr32 11 e ^^^ rotr32 25 e
    let ch := (e &&& f) ^^^ ((e ^^^ 0xffffffff) &&& g)
    let temp1 := w32 (hh + s1 + ch + kw.1 + kw.2)
    let s0 := rotr32 2 a ^^^ rotr32 13 a ^^^ rotr32 22 a
    let maj := (a &&& b) ^^^ (a &&& c) ^^^ (b &&& c)
    let temp2 := w32 (s0 + maj)
    [w32 (temp1 + temp2), a, b, c, w32 (d + temp1), e, f, g]
  | st => st

/-- SHA-256 compression of one 64-byte block into the running hash. -/
def sha256Compress (h : List Nat) (block : List Nat) : List Nat :=
  let final := (sha256K.zip (sha256Schedule block)).foldl sha256Round h
  (h.zip final).map (fun p => w32 (p.1 + p.2))

/-- SHA-256 digest of a byte list, as eight 32-bit words. -/
def sha256Words (msg : List Nat) : List Nat :=
  (chunks64 (sha256Pad msg)).foldl sha256Compress sha256H0

/-- Lowercase hexadecimal digit. -/
def hexDigit (n : Nat) : Char :=
  if n < 10 then Char.ofNat (48 + n) else Char.ofNat (87 + n)

/-- Lowercase hexadecimal rendering of one 32-bit word (8 digits). -/
def wordToHex (n : Nat) : String :=
  String.mk ((List.range 8).map (fun i => hexDigit (n / 16 ^ (7 - i) % 16)))

/-- Lowercase hexadecimal SHA-256 digest of a byte list; embeds Python
`hashlib.sha256(bytes).hexdigest()`. -/
def sha256Hex (msg : List Nat) : String :=
  String.join ((sha256Words msg).map wordToHex)

/-! Data model (`src/models.py`).  The optional pydantic fields are
`Option String`; the numeric `confidence` field (a float, inspected by no
code under verification) is omitted. -/

/-- A supporting source of an event (`models.Source`). -/
structure Source where
  title : String
  url : String
  snippet : String
deriving DecidableEq, Repr

/-- A candidate hazard or opportunity (`models.Event`). -/
structure Event where
  id : String
  category : String
  title : String
  location : String
  date : String
  time_window : Option String := none
  description : String
  rationale : String
  recommendation : String
  proposed_change : String
  itinerary_day : Option String := none
  itinerary_row_id : Option String := none
  change_type : Option String := none
  new_time : Option String := none
  new_location : Option String := none
  sources : List Source := []
deriving DecidableEq, Repr

/-- The batch of events returned by one agent invocation
(`models.EventList`). -/
structure EventList where
  events : List Event := []
deriving DecidableEq, Repr

/-! Deterministic event ids (`agent._assign_event_ids`).  The Python
`field or ""` guards are identity on the required string fields. -/

/-- The digest key of an event: its five semantic fields joined with a
pipe character. -/
def eventKey (e : Event) : String :=
  String.intercalate "|" [e.category, e.date, e.location, e.title,
    e.proposed_change]

/-- The deterministic id assigned to an event. -/
def eventDigestId (e : Event) : String :=
  "evt_" ++ (sha256Hex (utf8Encode (eventKey e))).take 12

/-- Embeds `agent._assign_event_ids`: overwrite every id with the digest
id, ignoring whatever id the agent supplied. -/
def assignEventIds (evs : EventList) : EventList :=
  ⟨evs.events.map (fun e => { e with id := eventDigestId e })⟩

/-! Date handling (`agent._parse_event_date`, `agent._is_iso_date`). -/

/-- A calendar date as parsed by `datetime.strptime`. -/
structure SimpleDate where
  year : Nat
  month : Nat
  day : Nat
deriving DecidableEq, Repr

/-- Chronological (lexicographic) order on dates, the order used by
`datetime` comparison. -/
def dateLe (a b : SimpleDate) : Bool :=
  a.year < b.year ||
  (a.year = b.year &&
    (a.month < b.month || (a.month = b.month && a.day ≤ b.day)))

/-- Gregorian leap-year rule used by `datetime`. -/
def isLeapYear (y : Nat) : Bool :=
  y % 4 = 0 && (y % 100 ≠ 0 || y % 400 = 0)

/-- Day count of a month as validated by `datetime.strptime`. -/
def daysInMonth (y m : Nat) : Nat :=
  if m = 2 then (if isLeapYear y then 29 else 28)
  else if m = 4 || m = 6 || m = 9 || m = 11 then 30
  else 31

/-- Validity of a year-month-day triple for `datetime` (year at least 1;
four digits bound the year by 9999). -/
def validDate (y m d : Nat) : Bool :=
  1 ≤ y && 1 ≤ m && m ≤ 12 && 1 ≤ d && d ≤ daysInMonth y m

/-- Digit-decimal value of a list of digit characters. -/
def digitsToNat (cs : List Char) : Nat :=
  cs.foldl (fun acc c => acc * 10 + (c.toNat - 48)) 0

/-- Attempt to read the ten characters `dddd-dd-dd` at the head of a
character list (the anchored part of the regex). -/
def isoHere (cs : List Char) : Option (Nat × Nat × Nat) :=
  match cs.take 10 with
  | [y1, y2, y3, y4, h1, m1, m2, h2, d1, d2] =>
    if y1.isDigit && y2.isDigit && y3.isDigit && y4.isDigit &&
        h1 = '-' && m1.isDigit && m2.isDigit && h2 = '-' &&
        d1.isDigit && d2.isDigit then
      some (digitsToNat [y1, y2, y3, y4], digitsToNat [m1, m2],
        digitsToNat [d1, d2])
    else none
  | _ => none

/-- Leftmost match of the unanchored search for `dddd-dd-dd`
(Python `re.search`). -/
def isoSearch : List Char → Option (Nat × Nat × Nat)
  | [] => none
  | c :: rest =>
    match isoHere (c :: rest) with
    | some r => some r
    | none => isoSearch rest

/-- Embeds `agent._parse_event_date`: first `dddd-dd-dd` shaped substring,
validated by `strptime`; `none` on absence or calendar invalidity. -/
def parseEventDate (value : String) : Option SimpleDate :=
  if value = "" then none
  else
    match isoSearch value.toList with
    | none => none
    | some (y, m, d) => if validDate y m d then some ⟨y, m, d⟩ else none

/-- Embeds `agent._is_iso_date`: the whole string matches
`^dddd-dd-dd$` (Python `$` also matches just before one final newline). -/
def isIsoDate (value : String) : Bool :=
  match value.toList with
  | [y1, y2, y3, y4, h1, m1, m2, h2, d1, d2] =>
    y1.isDigit && y2.isDigit && y3.isDigit && y4.isDigit &&
      h1 = '-' && m1.isDigit && m2.isDigit && h2 = '-' &&
      d1.isDigit && d2.isDigit
  | [y1, y2, y3, y4, h1, m1, m2, h2, d1, d2, nl] =>
    y1.isDigit && y2.isDigit && y3.isDigit && y4.isDigit &&
      h1 = '-' && m1.isDigit && m2.isDigit && h2 = '-' &&
      d1.isDigit && d2.isDigit && nl = '\n'
  | _ => false

/-! Evidence and quality filters (`agent._filter_hazards`,
`agent._filter_opportunities`, `agent._filter_solution_quality`). -/

/-- Hazard keyword set (`agent._filter_hazards`). -/
def hazardKeywords : List String :=
  ["storm", "snow", "wind", "strike", "closure", "warning", "advisory",
   "security", "travel advisory", "civil unrest", "demonstration",
   "terrorism", "crime", "warning level"]

/-- Severity cue set (`agent._filter_hazards`). -/
def severityCues : List String :=
  ["severe", "heavy", "major", "warning", "alert", "advisory", "cancel",
   "high", "elevated", "level"]

/-- Default value of `tools.OFFICIAL_DOMAINS` (used when the environment
variable is unset); the allowlist itself is threaded as a parameter since
it is environment-configurable. -/
def defaultOfficialDomains : List String :=
  ["weather.gc.ca", "canada.ca", "travel.gc.ca", "weather.gov", "noaa.gov",
   "nhc.noaa.gov", "cdc.gov", "who.int", "state.gov", "gov.uk", "europa.eu"]

/-- Lowered description-rationale-recommendation text of an event. -/
def hazardText (e : Event) : String :=
  (e.description ++ " " ++ e.rationale ++ " " ++ e.recommendation).toLower

/-- Lowered space-joined text of the nonempty source snippets. -/
def hazardSourceText (e : Event) : String :=
  (String.intercalate " " (e.sources.filterMap
    (fun s => if s.snippet = "" then none else some s.snippet))).toLower

/-- The per-event keep condition of `agent._filter_hazards`. -/
def hazardKeep (officialDomains : List String) (e : Event) : Bool :=
  if e.category ≠ "hazard" then true
  else
    let text := hazardText e
    let sourceText := hazardSourceText e
    let hasKeyword := hazardKeywords.any
      (fun k => strContains text k || strContains sourceText k)
    let hasSeverity := severityCues.any
      (fun c => strContains text c || strContains sourceText c)
    let hasSnippet := e.sources.any (fun s => s.snippet ≠ "")
    let hasOfficial :=
      if officialDomains ≠ [] then
        e.sources.any (fun s => officialDomains.any
          (fun d => strContains s.url d))
      else true
    let isMofa := e.sources.any (fun s => strContains s.url "mofa.go.jp")
    (hasKeyword && hasSeverity && hasSnippet && hasOfficial) ||
      (isMofa && hasSnippet)

/-- Embeds `agent._filter_hazards`: keep non-hazard events, keep hazard
events satisfying the evidence condition. -/
def filterHazards (officialDomains : List String) (evs : EventList) :
    EventList :=
  ⟨evs.events.filter (hazardKeep officialDomains)⟩

/-- The per-event keep condition of `agent._filter_opportunities`. -/
def opportunityKeep (allowedTerms : List String) (e : Event) : Bool :=
  if e.category ≠ "opportunity" then true
  else
    let hasSnippet := e.sources.any (fun s => s.snippet ≠ "")
    let locationText := e.location.toLower
    let matchesLocation :=
      if allowedTerms ≠ [] then
        allowedTerms.any (fun t => strContains locationText t.toLower)
      else true
    hasSnippet && matchesLocation

/-- Embeds `agent._filter_opportunities`. -/
def filterOpportunities (allowedTerms : List String) (evs : EventList) :
    EventList :=
  ⟨evs.events.filter (opportunityKeep allowedTerms)⟩

/-- The per-event keep condition of `agent._filter_solution_quality`:
both the recommendation and the proposed change, stripped, reach the
minimum length. -/
def qualityKeep (minLength : Nat) (e : Event) : Bool :=
  minLength ≤ (pyStrip e.recommendation).length &&
    minLength ≤ (pyStrip e.proposed_change).length

/-- Embeds `agent._filter_solution_quality`: the surviving batch together
with the removed-anything flag it returns. -/
def filterSolutionQuality (minLength : Nat) (evs : EventList) :
    EventList × Bool :=
  (⟨evs.events.filter (qualityKeep minLength)⟩,
    evs.events.any (fun e => !qualityKeep minLength e))

/-! Tool-usage audit (`agent._collect_tool_usage`,
`agent._extract_source_urls`).  The URL normalization
(`agent._normalize_url`, built on `urllib`) is an opaque pure string
transform threaded as a parameter; no verified property depends on its
behaviour. -/

/-- The `tool_input` attribute of a recorded action: a raw string or a
dict, of which only the `query` and `url` fields are consulted. -/
inductive ToolInput where
  | str (s : String)
  | dict (query : Option String) (url : Option String)
deriving DecidableEq, Repr

/-- One recorded agent action: tool name and input. -/
structure AgentAction where
  tool : String
  toolInput : ToolInput
deriving DecidableEq, Repr

/-- Python `a or b` on an optional string and a string default. -/
def pyOrStr (a : Option String) (b : String) : String :=
  match a with
  | some s => if s = "" then b else s
  | none => b

/-- The effective input of an action:
`tool_input.get("query") or tool_input.get("url") or ""` for dicts,
the string itself otherwise. -/
def effectiveInput : ToolInput → String
  | .str s => s
  | .dict q u => pyOrStr q (pyOrStr u "")

/-- The audit record built by `agent._collect_tool_usage`. -/
structure ToolUsage where
  searches : List String
  scrapes : List String
  officialSearches : List String
  officialScrapes : List String
  order : List String
deriving DecidableEq, Repr

/-- Embeds `agent._collect_tool_usage` (one pass in Python; split into
order-preserving selections here). -/
def collectToolUsage (normalizeUrl : String → String)
    (steps : List AgentAction) : ToolUsage where
  searches := steps.filterMap (fun a =>
    if a.tool = "web_search" then some (effectiveInput a.toolInput)
    else none)
  scrapes := steps.filterMap (fun a =>
    if a.tool = "web_scrape" then
      some (normalizeUrl (effectiveInput a.toolInput))
    else none)
  officialSearches := steps.filterMap (fun a =>
    if a.tool = "official_hazard_search" then
      some (effectiveInput a.toolInput)
    else none)
  officialScrapes := steps.filterMap (fun a =>
    if a.tool = "official_hazard_scrape" then
      some (normalizeUrl (effectiveInput a.toolInput))
    else none)
  order := (steps.map (fun a => a.tool)).filter (fun t => t ≠ "")

/-- Embeds `agent._extract_source_urls`: the normalized urls of all
truthy source urls of the batch. -/
def extractSourceUrls (normalizeUrl : String → String) (evs : EventList) :
    List String :=
  (evs.events.map (fun e => e.sources.filterMap
    (fun s => if s.url ≠ "" then some (normalizeUrl s.url) else none))).flatten

/-! The retry orchestrator (`agent.detect_events`).  The agent is an
oracle from the attempt index to that round's result; the corrective
guidance appended to the query hints between rounds only feeds the
opaque agent prompt and is absorbed by the oracle. -/

/-- Outcome of `result.get("output")` for one round: either already a
structured `EventList`, or raw text whose Pydantic parse outcome is
carried as `Option EventList` (`none` models the parse exception). -/
inductive AgentOutput where
  | structured (events : EventList)
  | raw (parsed : Option EventList)
deriving DecidableEq, Repr

/-- One round of the external agent: output and recorded action trace
(`intermediate_steps`). -/
structure AgentRound where
  output : AgentOutput
  steps : List AgentAction
deriving DecidableEq, Repr

/-- The fields of the itinerary context dict that `detect_events`
consults, with the defaults of the `get` calls. -/
structure ItineraryContext where
  dateMin : String := ""
  dateMax : String := ""
  cities : List String := []
  locations : List String := []
deriving DecidableEq, Repr

/-- The inputs of `detect_events` that its validation logic consults
(preferences, itinerary text, memory blobs and seed queries only feed
the opaque agent prompt). -/
structure DetectConfig where
  normalizeUrl : String → String
  officialDomains : List String
  blockedEventIds : List String
  context : ItineraryContext
  requiredCategories : List String
  maxEvents : Nat := 8

/-- Lines 269-273 of `agent.py`: accept a structured output directly,
otherwise re-parse the raw text once; a parse exception propagates. -/
def parseOutput : AgentOutput → Option EventList
  | .structured evs => some evs
  | .raw p => p

/-- Lines 275-279 (and, re-applied, 326-330) of `agent.py`: id
assignment followed by the three filters; also yields the
`solutions_filtered` flag. -/
def applyFilters (cfg : DetectConfig) (evs : EventList) :
    EventList × Bool :=
  let evs := assignEventIds evs
  let evs := filterHazards cfg.officialDomains evs
  let allowedTerms := cfg.context.cities ++ cfg.context.locations
  let evs := filterOpportunities allowedTerms evs
  filterSolutionQuality 20 evs

/-- Lines 281-309 of `agent.py`: the acceptance criteria of one round,
computed from the filtered batch, the removed-anything flag of the
quality filter and the action trace. -/
def roundAccepted (cfg : DetectConfig) (events : EventList)
    (solutionsFiltered : Bool) (steps : List AgentAction) : Bool :=
  let usage := collectToolUsage cfg.normalizeUrl steps
  let sourceUrls := extractSourceUrls cfg.normalizeUrl events
  let scrapedUrls := usage.scrapes ++ usage.officialScrapes
  let missingSources := sourceUrls.filter
    (fun u => u ≠ "" && !scrapedUrls.contains u)
  let invalidDates := events.events.filter (fun e => !isIsoDate e.date)
  let hasRequiredTools :=
    (!usage.searches.isEmpty && !usage.scrapes.isEmpty) &&
      (match usage.order with
       | [] => true
       | t :: _ => t = "web_search")
  let hazardEvents := events.events.filter (fun e => e.category = "hazard")
  let hasRequiredTools :=
    if !hazardEvents.isEmpty && !cfg.officialDomains.isEmpty then
      hasRequiredTools && !usage.officialSearches.isEmpty &&
        !usage.officialScrapes.isEmpty
    else hasRequiredTools
  let hasRequiredCategories := cfg.requiredCategories.all
    (fun c => events.events.any (fun e => e.category = c))
  hasRequiredTools && missingSources.isEmpty && hasRequiredCategories &&
    invalidDates.isEmpty && !solutionsFiltered

/-- The retry loop of `detect_events` over the remaining attempt
indices, carrying `last_events`; a parse exception aborts the call. -/
def runAttempts (cfg : DetectConfig) (agent : Nat → AgentRound) :
    List Nat → Option EventList → Except Unit (Option EventList)
  | [], last => .ok last
  | i :: rest, _ =>
    match parseOutput (agent i).output with
    | none => .error ()
    | some parsed =>
      let fe := applyFilters cfg parsed
      if roundAccepted cfg fe.1 fe.2 (agent i).steps then .ok (some fe.1)
      else runAttempts cfg agent rest (some fe.1)

/-- The literal attempt bound of the loop `for attempt in range(2)`. -/
def attemptBound : Nat := 2

/-- Embeds `agent.detect_events` (lines 254-347): the retry loop, the
fallback to an empty batch, the idempotent re-application of id
assignment and filters, the itinerary date-span restriction, the
blocked-id removal and the truncation to `max_events`. -/
def detectEvents (cfg : DetectConfig) (agent : Nat → AgentRound) :
    Except Unit EventList :=
  match runAttempts cfg agent (List.range attemptBound) none with
  | .error e => .error e
  | .ok last =>
    let events := last.getD ⟨[]⟩
    let events := (applyFilters cfg events).1
    let parsedMin :=
      if cfg.context.dateMin = "" then none
      else parseEventDate cfg.context.dateMin
    let parsedMax :=
      if cfg.context.dateMax = "" then none
      else parseEventDate cfg.context.dateMax
    let events : EventList :=
      match parsedMin, parsedMax with
      | some dmin, some dmax =>
        ⟨events.events.filter (fun e =>
          match parseEventDate e.date with
          | some d => dateLe dmin d && dateLe d dmax
          | none => false)⟩
      | _, _ => events
    let events : EventList :=
      ⟨events.events.filter (fun e => !cfg.blockedEventIds.contains e.id)⟩
    .ok ⟨events.events.take cfg.maxEvents⟩

/-! Memory store (`src/memory.py`).  The JSON state dict is a structure;
`load` and `save` are file-system snapshot operations outside the
embedding.  Python dicts are association lists with unique keys in
insertion order; updating an existing key keeps its position, which on
duplicate-free lists the update-every-match map below coincides with. -/

/-- A stored event dict: its optional `id` entry, plus the remaining
payload abstracted as one opaque component. -/
structure MemEvent where
  id : Option String
  payload : String := ""
deriving DecidableEq, Repr

/-- The persistent state dict of `MemoryStore`. -/
structure MemoryState where
  events : List MemEvent := []
  approvals : List (String × Bool) := []
  history : List String := []
  runCount : Int := 0
  rejections : List (String × Int) := []
  pendingEventIds : List String := []
deriving DecidableEq, Repr

/-- Python dict store `d[k] = v` on an association list. -/
def dictInsert {α : Type} (d : List (String × α)) (k : String) (v : α) :
    List (String × α) :=
  if d.any (fun p => p.1 = k) then
    d.map (fun p => if p.1 = k then (k, v) else p)
  else d ++ [(k, v)]

/-- Python dict lookup `d.get(k)` on an association list. -/
def dictFind {α : Type} (d : List (String × α)) (k : String) : Option α :=
  (d.find? (fun p => p.1 = k)).map (fun p => p.2)

/-- Python truthiness of the optional id string of a stored event. -/
def truthyId : Option String → Bool
  | some s => s ≠ ""
  | none => false

/-- The loop of `MemoryStore.add_events`, carrying the `existing_ids`
set (a list with set membership). -/
def addEventsAux (stored : List MemEvent) (existing : List (Option String)) :
    List MemEvent → List MemEvent
  | [] => stored
  | e :: rest =>
    if truthyId e.id && existing.contains e.id then
      addEventsAux stored existing rest
    else
      addEventsAux (stored ++ [e])
        (if truthyId e.id then e.id :: existing else existing) rest

/-- Embeds `MemoryStore.add_events`. -/
def addEvents (s : MemoryState) (events : List MemEvent) : MemoryState :=
  { s with events :=
      addEventsAux s.events (s.events.map (fun e => e.id)) events }

/-- Embeds `MemoryStore.add_history`. -/
def addHistory (s : MemoryState) (entry : String) : MemoryState :=
  { s with history := s.history ++ [entry] }

/-- Embeds `MemoryStore.set_approval`: record the decision; a rejection
additionally records the current run count. -/
def setApproval (s : MemoryState) (eventId : String) (approved : Bool) :
    MemoryState :=
  let s1 := { s with approvals := dictInsert s.approvals eventId approved }
  if approved then s1
  else { s1 with rejections := dictInsert s1.rejections eventId s.runCount }

/-- Embeds `MemoryStore.increment_run_count` (state part). -/
def incrementRunCount (s : MemoryState) : MemoryState :=
  { s with runCount := s.runCount + 1 }

/-- `k` successive `increment_run_count` calls. -/
def incRuns (s : MemoryState) : Nat → MemoryState
  | 0 => s
  | k + 1 => incrementRunCount (incRuns s k)

/-- Embeds `MemoryStore.get_blocked_event_ids`: ids whose recorded
rejection run is within `ttl` runs of the current run count. -/
def getBlockedEventIds (s : MemoryState) (ttl : Int) : List String :=
  s.rejections.filterMap
    (fun p => if s.runCount - p.2 ≤ ttl then some p.1 else none)

/-- The state-mutating operations of `MemoryStore` (the remaining
operations — the summaries and `get_blocked_event_ids` — are pure reads,
and `load`/`save` are whole-state file snapshots). -/
inductive MemOp where
  | addEvents (l : List MemEvent)
  | addHistory (entry : String)
  | setApproval (eventId : String) (approved : Bool)
  | incrementRunCount
deriving DecidableEq, Repr

/-- Interpretation of a state-mutating operation. -/
def applyOp (s : MemoryState) : MemOp → MemoryState
  | .addEvents l => addEvents s l
  | .addHistory e => addHistory s e
  | .setApproval i a => setApproval s i a
  | .incrementRunCount => incrementRunCount s

/-! Helper lemmas shared between the main theorems. -/

/-- Membership characterization of `getBlockedEventIds`. -/
theorem mem_getBlockedEventIds (s : MemoryState) (ttl : Int) (i : String) :
    i ∈ getBlockedEventIds s ttl ↔
      ∃ r : Int, (i, r) ∈ s.rejections ∧ s.runCount - r ≤ ttl := by
  unfold getBlockedEventIds
  rw [List.mem_filterMap]
  constructor
  · rintro ⟨⟨a, r⟩, hmem, hf⟩
    by_cases hc : s.runCount - r ≤ ttl
    · rw [if_pos hc] at hf
      injection hf with h
      subst h
      exact ⟨r, hmem, hc⟩
    · rw [if_neg hc] at hf
      exact absurd hf (by simp)
  · rintro ⟨r, hmem, hc⟩
    exact ⟨(i, r), hmem, by rw [if_pos hc]⟩

/-- Storing a key makes it findable with the stored value. -/
theorem dictFind_dictInsert {α : Type} (d : List (String × α)) (k : String)
    (v : α) : dictFind (dictInsert d k v) k = some v := by
  unfold dictInsert
  by_cases h : d.any (fun p => p.1 = k)
  · rw [if_pos h]
    induction d with
    | nil => simp at h
    | cons p rest ih =>
      by_cases hp : p.1 = k
      · simp [dictFind, List.find?, hp]
      · have hrest : rest.any (fun p => p.1 = k) := by
          rcases List.any_eq_true.1 h with ⟨q, hq0, hq2⟩
          rcases List.mem_cons.1 hq0 with hq | hq
          · exact absurd (by simpa using hq2) (by simpa [hq] using hp)
          · exact List.any_eq_true.2 ⟨q, hq, hq2⟩
        have := ih hrest
        simpa [dictFind, List.find?, hp] using this
  · rw [if_neg h]
    induction d with
    | nil => simp [dictFind, List.find?]
    | cons p rest ih =>
      have hp : ¬(p.1 = k) := by
        intro hk
        exact h (List.any_eq_true.2 ⟨p, List.mem_cons_self p rest, by simp [hk]⟩)
      have hrest : ¬rest.any (fun p => p.1 = k) := by
        intro hr
        rcases List.any_eq_true.1 hr with ⟨q, hq, hq2⟩
        exact h (List.any_eq_true.2 ⟨q, List.mem_cons_of_mem p hq, hq2⟩)
      have := ih hrest
      simpa [dictFind, List.find?, hp] using this

/-- After storing a key, every entry under that key carries the stored
value. -/
theorem dictInsert_mem_val {α : Type} {d : List (String × α)} {k : String}
    {v r : α} (h : (k, r) ∈ dictInsert d k v) : r = v := by
  unfold dictInsert at h
  by_cases ha : d.any (fun p => p.1 = k)
  · rw [if_pos ha] at h
    rcases List.mem_map.1 h with ⟨⟨a, b⟩, _, hf⟩
    by_cases hab : a = k
    · rw [if_pos (by simpa using hab)] at hf
      exact (Prod.mk.injEq _ _ _ _ ▸ hf).2.symm
    · rw [if_neg (by simpa using hab)] at hf
      exact absurd (Prod.mk.injEq _ _ _ _ ▸ hf).1 hab
  · rw [if_neg ha] at h
    rcases List.mem_append.1 h with hd | hone
    · exact absurd (List.any_eq_true.2 ⟨(k, r), hd, by simp⟩) ha
    · simpa using hone

/-- The stored pair itself is present after a store. -/
theorem dictInsert_mem_self {α : Type} (d : List (String × α)) (k : String)
    (v : α) : (k, v) ∈ dictInsert d k v := by
  have h := dictFind_dictInsert d k v
  unfold dictFind at h
  cases hf : (dictInsert d k v).find? (fun p => p.1 = k) with
  | none => rw [hf] at h; exact absurd h (by simp)
  | some p =>
    rw [hf] at h
    obtain ⟨a, b⟩ := p
    have h1 : a = k := by simpa using List.find?_some hf
    have h2 : b = v := by simpa using h
    subst h1; subst h2
    exact List.mem_of_find?_eq_some hf

/-- Storing any key preserves the presence of every key. -/
theorem dictInsert_mem_key {α : Type} {d : List (String × α)} {i : String}
    {r : α} (k : String) (v : α) (h : (i, r) ∈ d) :
    ∃ r' : α, (i, r') ∈ dictInsert d k v := by
  unfold dictInsert
  by_cases ha : d.any (fun p => p.1 = k)
  · rw [if_pos ha]
    by_cases hik : i = k
    · exact ⟨v, List.mem_map.2 ⟨(i, r), h, by simp [hik]⟩⟩
    · exact ⟨r, List.mem_map.2 ⟨(i, r), h, by simp [hik]⟩⟩
  · rw [if_neg ha]
    exact ⟨r, List.mem_append.2 (Or.inl h)⟩

/-- `incRuns` leaves the rejection map alone and advances the counter. -/
theorem incRuns_fields (s : MemoryState) (k : Nat) :
    (incRuns s k).rejections = s.rejections ∧
      (incRuns s k).runCount = s.runCount + k := by
  induction k with
  | zero => simp [incRuns]
  | succ n ih =>
    refine ⟨by simp [incRuns, incrementRunCount, ih.1], ?_⟩
    simp only [incRuns, incrementRunCount]
    rw [ih.2]
    push_cast
    ring

/-- C6: `get_blocked_event_ids` returns exactly the event ids whose
recorded rejection run `r` satisfies `current_run - r <= ttl_runs`
(inclusive); in particular an id rejected at run `R` is returned at run
`R + k` iff `k <= ttl_runs`. -/
theorem getBlockedEventIds_spec (s : MemoryState) (ttl : Int) (i : String) :
    (i ∈ getBlockedEventIds s ttl ↔
      ∃ r : Int, (i, r) ∈ s.rejections ∧ s.runCount - r ≤ ttl) ∧
    ∀ (R : Int) (k : Nat),
      (∀ r : Int, (i, r) ∈ s.rejections → r = R) →
      (i, R) ∈ s.rejections → s.runCount = R + k →
      (i ∈ getBlockedEventIds s ttl ↔ (k : Int) ≤ ttl) := by
  refine ⟨mem_getBlockedEventIds s ttl i, ?_⟩
  intro R k huniq hmem hrun
  rw [mem_getBlockedEventIds s ttl i]
  constructor
  · rintro ⟨r, hr, hc⟩
    have := huniq r hr
    subst this
    rw [hrun] at hc
    omega
  · intro hk
    exact ⟨R, hmem, by rw [hrun]; omega⟩

/-- C6 witness: an id rejected at run 1 is blocked at run 3 with
`ttl_runs = 2`. -/
theorem getBlockedEventIds_spec_witness :
    "evt_1" ∈ getBlockedEventIds
      { runCount := 3, rejections := [("evt_1", 1)] } 2 :=
  ((getBlockedEventIds_spec
      { runCount := 3, rejections := [("evt_1", 1)] } 2 "evt_1").2
    1 2 (by intro r hr; simpa using hr) (by simp) (by decide)).2 (by decide)

/-- C10: rejecting an id records the current run; no store operation
removes a rejection entry, and a later approval of the same id leaves
the rejection record intact, so the id stays blocked for the remainder
of its TTL window even though its latest recorded decision is approval. -/
theorem setApproval_rejection_sticky (s : MemoryState) (i : String)
    (k : Nat) (ttl : Int) :
    dictFind (setApproval (setApproval s i false) i true).approvals i =
      some true ∧
    dictFind (setApproval (setApproval s i false) i true).rejections i =
      some s.runCount ∧
    (∀ op : MemOp, ∀ j : String, ∀ r : Int, (j, r) ∈ s.rejections →
      ∃ r' : Int, (j, r') ∈ (applyOp s op).rejections) ∧
    (i ∈ getBlockedEventIds
        (incRuns (setApproval (setApproval s i false) i true) k) ttl ↔
      (k : Int) ≤ ttl) := by
  have hrej : (setApproval (setApproval s i false) i true).rejections =
      dictInsert s.rejections i s.runCount := by
    simp [setApproval]
  have hrun : (setApproval (setApproval s i false) i true).runCount =
      s.runCount := by
    simp [setApproval]
  refine ⟨?_, ?_, ?_, ?_⟩
  · simp only [setApproval]
    exact dictFind_dictInsert _ i true
  · rw [hrej]
    exact dictFind_dictInsert _ i s.runCount
  · intro op j r hmem
    cases op with
    | addEvents l => exact ⟨r, hmem⟩
    | addHistory e => exact ⟨r, hmem⟩
    | incrementRunCount => exact ⟨r, hmem⟩
    | setApproval j' a =>
      cases a with
      | true => exact ⟨r, hmem⟩
      | false =>
        simp only [applyOp, setApproval]
        exact dictInsert_mem_key j' s.runCount hmem
  · rw [mem_getBlockedEventIds]
    have hf := incRuns_fields (setApproval (setApproval s i false) i true) k
    rw [hf.1, hf.2, hrej, hrun]
    constructor
    · rintro ⟨r, hr, hc⟩
      have := dictInsert_mem_val hr
      subst this
      omega
    · intro hk
      exact ⟨s.runCount, dictInsert_mem_self _ i s.runCount, by omega⟩

/-- C4: `_assign_event_ids` sets every id to `evt_` followed by the
first 12 hex characters of the SHA-256 digest of the five semantic
fields joined with a pipe; the id is a pure function of those fields, so
two events agreeing on them receive the same id whatever ids the agent
supplied. -/
theorem assignEventIds_digest (evs : EventList) (e1 e2 : Event)
    (hc : e1.category = e2.category) (hd : e1.date = e2.date)
    (hl : e1.location = e2.location) (ht : e1.title = e2.title)
    (hp : e1.proposed_change = e2.proposed_change) :
    (assignEventIds evs).events = evs.events.map (fun e =>
      { e with id := "evt_" ++ (sha256Hex (utf8Encode
          (String.intercalate "|" [e.category, e.date, e.location, e.title,
            e.proposed_change]))).take 12 }) ∧
    eventDigestId e1 = eventDigestId e2 := by
  refine ⟨rfl, ?_⟩
  unfold eventDigestId eventKey
  rw [hc, hd, hl, ht, hp]

/-- C4 witness: two events with identical semantic fields but different
agent-supplied ids and descriptions collapse to the same digest id. -/
theorem assignEventIds_digest_witness :
    eventDigestId
      { id := "evt_agent_supplied", category := "hazard", title := "Storm",
        location := "Tokyo", date := "2026-02-03", description := "first",
        rationale := "a", recommendation := "b", proposed_change := "c" } =
    eventDigestId
      { id := "", category := "hazard", title := "Storm",
        location := "Tokyo", date := "2026-02-03", description := "second",
        rationale := "x", recommendation := "y", proposed_change := "c" } :=
  (assignEventIds_digest ⟨[]⟩ _ _ rfl rfl rfl rfl rfl).2

/-- C7: the quality filter removes exactly the events whose stripped
recommendation or proposed-change text is shorter than the minimum
length, reports whether anything was removed, and a report of removal
makes the round fail acceptance. -/
theorem filterSolutionQuality_spec (minLength : Nat) (evs : EventList) :
    (∀ e : Event, e ∈ (filterSolutionQuality minLength evs).1.events ↔
      e ∈ evs.events ∧ ¬((pyStrip e.recommendation).length < minLength ∨
        (pyStrip e.proposed_change).length < minLength)) ∧
    ((filterSolutionQuality minLength evs).2 = true ↔
      ∃ e ∈ evs.events, (pyStrip e.recommendation).length < minLength ∨
        (pyStrip e.proposed_change).length < minLength) ∧
    (∀ (cfg : DetectConfig) (events : EventList)
        (steps : List AgentAction),
      roundAccepted cfg events true steps = false) := by
  refine ⟨?_, ?_, ?_⟩
  · intro e
    simp [filterSolutionQuality, List.mem_filter, qualityKeep, Nat.not_lt]
  · simp [filterSolutionQuality, List.any_eq_true, qualityKeep, Nat.not_le]
  · intro cfg events steps
    simp [roundAccepted]

/-- C8: the opportunity filter keeps non-opportunity events unchanged
and keeps an opportunity event iff some source has a nonempty snippet
and (the allowed-terms list is empty or the lowered location contains
some allowed term, case-insensitively). -/
theorem filterOpportunities_mem (allowedTerms : List String)
    (evs : EventList) (e : Event) :
    e ∈ (filterOpportunities allowedTerms evs).events ↔
      e ∈ evs.events ∧ (e.category = "opportunity" →
        ((∃ s ∈ e.sources, s.snippet ≠ "") ∧
          (allowedTerms = [] ∨ ∃ t ∈ allowedTerms,
            strContains e.location.toLower t.toLower = true))) := by
  rw [show (filterOpportunities allowedTerms evs).events =
      evs.events.filter (opportunityKeep allowedTerms) from rfl,
    List.mem_filter]
  constructor
  · rintro ⟨hmem, hkeep⟩
    refine ⟨hmem, fun hcat => ?_⟩
    rw [opportunityKeep, if_neg (by simp [hcat])] at hkeep
    rw [Bool.and_eq_true] at hkeep
    obtain ⟨hs, hl⟩ := hkeep
    refine ⟨by simpa [List.any_eq_true] using hs, ?_⟩
    by_cases hterms : allowedTerms = []
    · exact Or.inl hterms
    · rw [if_pos (by simpa using hterms)] at hl
      exact Or.inr (by simpa [List.any_eq_true] using hl)
  · rintro ⟨hmem, hcond⟩
    refine ⟨hmem, ?_⟩
    by_cases hcat : e.category = "opportunity"
    · rcases hcond hcat with ⟨hs, hl⟩
      rw [opportunityKeep, if_neg (by simp [hcat])]
      rw [Bool.and_eq_true]
      refine ⟨by simpa [List.any_eq_true] using hs, ?_⟩
      rcases hl with hl | hl
      · rw [if_neg (by simp [hl])]
      · by_cases hterms : allowedTerms = []
        · rw [if_neg (by simp [hterms])]
        · rw [if_pos (by simpa using hterms)]
          exact by simpa [List.any_eq_true] using hl
    · rw [opportunityKeep, if_pos (by simpa using hcat)]

/-- Propositional characterization of the hazard keep condition. -/
theorem hazardKeep_iff (od : List String) (e : Event) :
    hazardKeep od e = true ↔
      (e.category = "hazard" →
        (((∃ k ∈ hazardKeywords, strContains (hazardText e) k = true ∨
            strContains (hazardSourceText e) k = true) ∧
          (∃ c ∈ severityCues, strContains (hazardText e) c = true ∨
            strContains (hazardSourceText e) c = true) ∧
          (∃ s ∈ e.sources, s.snippet ≠ "") ∧
          (od ≠ [] → ∃ s ∈ e.sources, ∃ d ∈ od,
            strContains s.url d = true)) ∨
        ((∃ s ∈ e.sources, strContains s.url "mofa.go.jp" = true) ∧
          (∃ s ∈ e.sources, s.snippet ≠ "")))) := by
  by_cases hcat : e.category = "hazard"
  · rw [hazardKeep, if_neg (by simp [hcat])]
    simp only [Bool.or_eq_true, Bool.and_eq_true]
    constructor
    · rintro (⟨⟨⟨hK, hS⟩, hSn⟩, hO⟩ | ⟨hM, hSn⟩)
      · intro _
        refine Or.inl ⟨?_, ?_, ?_, ?_⟩
        · simpa [List.any_eq_true] using hK
        · simpa [List.any_eq_true] using hS
        · simpa [List.any_eq_true] using hSn
        · intro hod
          rw [if_pos hod] at hO
          simpa [List.any_eq_true] using hO
      · intro _
        exact Or.inr ⟨by simpa [List.any_eq_true] using hM,
          by simpa [List.any_eq_true] using hSn⟩
    · intro h
      rcases h hcat with ⟨hK, hS, hSn, hO⟩ | ⟨hM, hSn⟩
      · refine Or.inl ⟨⟨⟨?_, ?_⟩, ?_⟩, ?_⟩
        · simpa [List.any_eq_true] using hK
        · simpa [List.any_eq_true] using hS
        · simpa [List.any_eq_true] using hSn
        · by_cases hod : od = []
          · rw [if_neg (by simp [hod])]
          · rw [if_pos hod]
            simpa [List.any_eq_true] using hO hod
      · exact Or.inr ⟨by simpa [List.any_eq_true] using hM,
          by simpa [List.any_eq_true] using hSn⟩
  · simp [hazardKeep, hcat]

/-- C5: the hazard filter keeps non-hazard events unchanged and keeps a
hazard event iff (keyword and severity cue present in its text or
snippets, some source has a nonempty snippet, and some source url
matches the official allowlist — vacuously when the allowlist is
empty) or (some source url contains the trusted advisory domain
mofa.go.jp and some source has a nonempty snippet). -/
theorem filterHazards_mem (od : List String) (evs : EventList) (e : Event) :
    e ∈ (filterHazards od evs).events ↔
      e ∈ evs.events ∧ (e.category = "hazard" →
        (((∃ k ∈ hazardKeywords, strContains (hazardText e) k = true ∨
            strContains (hazardSourceText e) k = true) ∧
          (∃ c ∈ severityCues, strContains (hazardText e) c = true ∨
            strContains (hazardSourceText e) c = true) ∧
          (∃ s ∈ e.sources, s.snippet ≠ "") ∧
          (od ≠ [] → ∃ s ∈ e.sources, ∃ d ∈ od,
            strContains s.url d = true)) ∨
        ((∃ s ∈ e.sources, strContains s.url "mofa.go.jp" = true) ∧
          (∃ s ∈ e.sources, s.snippet ≠ "")))) := by
  rw [show (filterHazards od evs).events =
      evs.events.filter (hazardKeep od) from rfl, List.mem_filter,
    hazardKeep_iff]

/-- C2: whenever the recorded tool-usage order is non-empty, a round
passes acceptance only if the first tool used is `web_search`; any other
first tool — in particular `web_scrape` — fails the round regardless of
the remaining criteria, triggering a retry. -/
theorem roundAccepted_search_first (cfg : DetectConfig) (events : EventList)
    (solutionsFiltered : Bool) (steps : List AgentAction) (t : String)
    (hhead : (collectToolUsage cfg.normalizeUrl steps).order.head? = some t)
    (hne : t ≠ "web_search") :
    roundAccepted cfg events solutionsFiltered steps = false := by
  cases horder : (collectToolUsage cfg.normalizeUrl steps).order with
  | nil => rw [horder] at hhead; exact absurd hhead (by simp)
  | cons a rest =>
    rw [horder] at hhead
    have ha : a = t := by simpa using hhead
    subst ha
    simp only [roundAccepted, horder]
    simp [hne]

/-- C2 witness: a trace whose first (and only) tool is `web_scrape` is
rejected. -/
theorem roundAccepted_search_first_witness :
    roundAccepted
      { normalizeUrl := id, officialDomains := [], blockedEventIds := [],
        context := {}, requiredCategories := [] }
      ⟨[]⟩ false [⟨"web_scrape", .str "https://example.com"⟩] = false :=
  roundAccepted_search_first _ _ _ _ "web_scrape" rfl (by decide)

/-- `addEventsAux` only ever appends to the stored list. -/
theorem addEventsAux_append (l : List MemEvent) :
    ∀ (stored : List MemEvent) (ex : List (Option String)),
      ∃ tl : List MemEvent, addEventsAux stored ex l = stored ++ tl := by
  induction l with
  | nil => intro stored ex; exact ⟨[], by simp [addEventsAux]⟩
  | cons e rest ih =>
    intro stored ex
    rw [addEventsAux]
    by_cases hc : truthyId e.id && ex.contains e.id
    · rw [if_pos hc]
      exact ih stored ex
    · rw [if_neg hc]
      rcases ih (stored ++ [e])
        (if truthyId e.id then e.id :: ex else ex) with ⟨tl, htl⟩
      exact ⟨e :: tl, by simpa using htl⟩

/-- Every truthy id of the inserted list is present among the ids of the
result, provided the carried id set only names stored ids. -/
theorem addEventsAux_mem_ids (l : List MemEvent) :
    ∀ (stored : List MemEvent) (ex : List (Option String)),
      (∀ i ∈ ex, i ∈ stored.map (fun v => v.id)) →
      ∀ e ∈ l, truthyId e.id = true →
        e.id ∈ (addEventsAux stored ex l).map (fun v => v.id) := by
  induction l with
  | nil => intro _ _ _ e he; exact absurd he (List.not_mem_nil e)
  | cons e0 rest ih =>
    intro stored ex hsub e he ht
    rw [addEventsAux]
    by_cases hc : truthyId e0.id && ex.contains e0.id
    · rw [if_pos hc]
      rcases List.mem_cons.1 he with he | he
      · subst he
        have hex : e.id ∈ ex := by
          have := (Bool.and_eq_true _ _ ▸ hc).2
          simpa [List.elem_iff] using this
        have hstored := hsub e.id hex
        rcases addEventsAux_append rest stored ex with ⟨tl, htl⟩
        rw [htl, List.map_append]
        exact List.mem_append.2 (Or.inl hstored)
      · exact ih stored ex hsub e he ht
    · rw [if_neg hc]
      rcases List.mem_cons.1 he with he | he
      · subst he
        rcases addEventsAux_append rest (stored ++ [e])
          (if truthyId e.id then e.id :: ex else ex) with ⟨tl, htl⟩
        rw [htl, List.map_append, List.map_append]
        exact List.mem_append.2 (Or.inl (List.mem_append.2 (Or.inr (by simp))))
      · refine ih (stored ++ [e0]) _ ?_ e he ht
        intro i hi
        by_cases ht0 : truthyId e0.id
        · rw [if_pos ht0] at hi
          rcases List.mem_cons.1 hi with hi | hi
          · subst hi; simp
          · have := hsub i hi
            rw [List.map_append]
            exact List.mem_append.2 (Or.inl this)
        · rw [if_neg ht0] at hi
          have := hsub i hi
          rw [List.map_append]
          exact List.mem_append.2 (Or.inl this)

/-- If every inserted event has a truthy id already in the carried id
set, `addEventsAux` is the identity on the stored list. -/
theorem addEventsAux_skip_all (l : List MemEvent)
    (stored : List MemEvent) (ex : List (Option String))
    (h : ∀ e ∈ l, truthyId e.id = true ∧ ex.contains e.id = true) :
    addEventsAux stored ex l = stored := by
  induction l with
  | nil => rfl
  | cons e rest ih =>
    rw [addEventsAux]
    rcases h e (List.mem_cons_self e rest) with ⟨ht, hc⟩
    rw [if_pos (by rw [ht, hc]; rfl)]
    exact ih (fun e' he' => h e' (List.mem_cons_of_mem e he'))

/-- Count of events carrying a fixed truthy id after `addEventsAux`: one
new event at most, none if the id is already known. -/
theorem addEventsAux_count (x : String) (hx : x ≠ "") (l : List MemEvent) :
    ∀ (stored : List MemEvent) (ex : List (Option String)),
      ((addEventsAux stored ex l).filter
          (fun e => e.id = some x)).length =
        (stored.filter (fun e => e.id = some x)).length +
          (if ex.contains (some x) then 0
           else min ((l.filter (fun e => e.id = some x)).length) 1) := by
  induction l with
  | nil => intro stored ex; simp [addEventsAux]
  | cons e rest ih =>
    intro stored ex
    rw [addEventsAux]
    by_cases hc : truthyId e.id && ex.contains e.id
    · rw [if_pos hc]
      rw [ih stored ex]
      by_cases hex : ex.contains (some x)
      · rw [if_pos hex, if_pos hex]
      · rw [if_neg hex, if_neg hex]
        have hne : ¬(e.id = some x) := by
          intro hid
          rw [hid] at hc
          exact hex (Bool.and_eq_true _ _ ▸ hc).2
        simp [List.filter_cons, hne]
    · rw [if_neg hc]
      rw [ih (stored ++ [e]) (if truthyId e.id then e.id :: ex else ex)]
      by_cases hid : e.id = some x
      · have ht : truthyId e.id = true := by simp [hid, truthyId, hx]
        have hex : ¬ex.contains (some x) := by
          intro hex
          exact hc (by rw [ht, hid, hex]; rfl)
        rw [if_pos ht]
        rw [if_pos (by simp [hid, List.elem_iff] : (e.id :: ex).contains (some x) = true)]
        rw [if_neg hex]
        simp [List.filter_append, List.filter_cons, hid]
      · have hsame : (if truthyId e.id then e.id :: ex else ex).contains (some x)
            = ex.contains (some x) := by
          by_cases ht : truthyId e.id
          · rw [if_pos ht]
            simp [List.elem_iff, List.mem_cons]
            intro heq
            exact absurd heq.symm hid
          · rw [if_neg ht]
        rw [hsame]
        by_cases hex : ex.contains (some x)
        · rw [if_pos hex, if_pos hex]
          simp [List.filter_append, List.filter_cons, hid]
        · rw [if_neg hex, if_neg hex]
          simp [List.filter_append, List.filter_cons, hid]

/-- C9: `add_events` appends in input order, skipping events whose id is
already stored (first-seen wins); repeated insertion of id-bearing
events is idempotent and leaves at most one new stored event per id. -/
theorem addEvents_dedup (s : MemoryState) (l : List MemEvent)
    (h : ∀ e ∈ l, truthyId e.id = true) :
    (∃ tl : List MemEvent, (addEvents s l).events = s.events ++ tl) ∧
    addEvents (addEvents s l) l = addEvents s l ∧
    ∀ x : String, x ≠ "" →
      ((addEvents s l).events.filter (fun e => e.id = some x)).length =
        (s.events.filter (fun e => e.id = some x)).length +
          (if (s.events.map (fun v => v.id)).contains (some x) then 0
           else min ((l.filter (fun e => e.id = some x)).length) 1) := by
  refine ⟨addEventsAux_append l s.events _, ?_, ?_⟩
  · have heq : addEventsAux (addEvents s l).events
        ((addEvents s l).events.map (fun v => v.id)) l =
        (addEvents s l).events := by
      apply addEventsAux_skip_all
      intro e he
      refine ⟨h e he, ?_⟩
      have := addEventsAux_mem_ids l s.events
        (s.events.map (fun v => v.id)) (fun i hi => hi) e he (h e he)
      simpa [List.elem_iff, addEvents] using this
    conv_lhs => rw [addEvents]
    rw [heq]
  · intro x hx
    exact addEventsAux_count x hx l s.events _

/-- C9 witness: inserting the same id twice into an empty store yields
exactly one stored event with that id, and re-running the insertion
changes nothing. -/
theorem addEvents_dedup_witness :
    addEvents (addEvents {} [⟨some "evt_1", ""⟩, ⟨some "evt_1", ""⟩])
        [⟨some "evt_1", ""⟩, ⟨some "evt_1", ""⟩] =
      addEvents {} [⟨some "evt_1", ""⟩, ⟨some "evt_1", ""⟩] ∧
    ((addEvents {} [⟨some "evt_1", ""⟩, ⟨some "evt_1", ""⟩]).events.filter
        (fun e => e.id = some "evt_1")).length = 1 := by
  have h := addEvents_dedup {} [⟨some "evt_1", ""⟩, ⟨some "evt_1", ""⟩]
    (by intro e he; rcases List.mem_cons.1 he with he | he
        · subst he; rfl
        · rcases List.mem_cons.1 he with he | he
          · subst he; rfl
          · exact absurd he (List.not_mem_nil e))
  refine ⟨h.2.1, ?_⟩
  have h2 := h.2.2 "evt_1" (by decide)
  simpa using h2

/-- Configuration of the C3 counterexample. -/
def c3Cfg : DetectConfig :=
  { normalizeUrl := id, officialDomains := [], blockedEventIds := [],
    context := {}, requiredCategories := [] }

/-- Agent whose raw output never parses. -/
def c3Agent : Nat → AgentRound := fun _ => ⟨.raw none, []⟩

/-- C3 counterexample: with an agent whose output fails parsing in every
round, `detect_events` propagates the parse exception (the embedded
result is the error) instead of returning the empty batch; the
`last_events or EventList()` fallback is unreachable. -/
theorem detectEvents_parse_failure_cex :
    detectEvents c3Cfg c3Agent = Except.error () ∧
    detectEvents c3Cfg c3Agent ≠ Except.ok ⟨[]⟩ :=
  ⟨rfl, fun h => by
    have h2 : (Except.error () : Except Unit EventList) = Except.ok ⟨[]⟩ := h
    exact absurd h2 (by simp)⟩

/-- C3 amended: a parse failure in the first round makes `detect_events`
raise immediately (the error propagates out of the call); it does not
fall back to an empty batch, and the failed re-parse does not count as a
failed acceptance attempt. -/
theorem detectEvents_parse_failure_raises (cfg : DetectConfig)
    (agent : Nat → AgentRound)
    (h : parseOutput (agent 0).output = none) :
    detectEvents cfg agent = Except.error () := by
  have hr : runAttempts cfg agent (List.range attemptBound) none =
      Except.error () := by
    have hrange : List.range attemptBound = [0, 1] := rfl
    rw [hrange]
    simp only [runAttempts, h]
  simp [detectEvents, hr]

/-- C3 amended witness: a concrete first-round parse failure aborts the
call even with a richer configuration. -/
theorem detectEvents_parse_failure_raises_witness :
    detectEvents
      { normalizeUrl := id, officialDomains := defaultOfficialDomains,
        blockedEventIds := ["evt_1"],
        context := { dateMin := "2026-02-01", dateMax := "2026-02-05" },
        requiredCategories := ["hazard", "opportunity"] }
      (fun i => if i = 0 then ⟨.raw none, [⟨"web_search", .str "q"⟩]⟩
        else ⟨.structured ⟨[]⟩, []⟩) = Except.error () :=
  detectEvents_parse_failure_raises _ _ rfl

/-- C1: whenever the itinerary context supplies parseable date bounds,
every event of the returned batch is dated within the span, carries no
blocked id, and the batch holds at most `max_events` events. -/
theorem detectEvents_post (cfg : DetectConfig) (agent : Nat → AgentRound)
    (batch : EventList) (dmin dmax : SimpleDate)
    (hok : detectEvents cfg agent = Except.ok batch)
    (hmin : parseEventDate cfg.context.dateMin = some dmin)
    (hmax : parseEventDate cfg.context.dateMax = some dmax) :
    (∀ e ∈ batch.events,
      (∃ d : SimpleDate, parseEventDate e.date = some d ∧
        dateLe dmin d = true ∧ dateLe d dmax = true) ∧
      cfg.blockedEventIds.contains e.id = false) ∧
    batch.events.length ≤ cfg.maxEvents := by
  have hne1 : ¬(cfg.context.dateMin = "") := by
    intro h0
    rw [h0, parseEventDate, if_pos rfl] at hmin
    exact absurd hmin (by simp)
  have hne2 : ¬(cfg.context.dateMax = "") := by
    intro h0
    rw [h0, parseEventDate, if_pos rfl] at hmax
    exact absurd hmax (by simp)
  rw [detectEvents] at hok
  cases hrun : runAttempts cfg agent (List.range attemptBound) none with
  | error e => rw [hrun] at hok; exact absurd hok (by simp)
  | ok last =>
    rw [hrun] at hok
    simp only [if_neg hne1, if_neg hne2, hmin, hmax] at hok
    rw [Except.ok.injEq] at hok
    subst hok
    constructor
    · intro e he
      have he1 := List.take_subset _ _ he
      rw [List.mem_filter] at he1
      obtain ⟨he2, hblocked⟩ := he1
      rw [List.mem_filter] at he2
      obtain ⟨_, hdate⟩ := he2
      constructor
      · revert hdate
        cases hd : parseEventDate e.date with
        | none => intro hdate; exact absurd hdate (by simp)
        | some d =>
          intro hdate
          simp only [Bool.and_eq_true] at hdate
          exact ⟨d, rfl, hdate.1, hdate.2⟩
      · simpa using hblocked
    · rw [List.length_take]
      exact Nat.min_le_left _ _

/-- Configuration of the C1 witness. -/
def c1Cfg : DetectConfig :=
  { normalizeUrl := id, officialDomains := [],
    blockedEventIds := ["evt_blocked"],
    context := { dateMin := "2026-02-01", dateMax := "2026-02-05" },
    requiredCategories := [] }

/-- Agent of the C1 witness, returning an empty structured batch. -/
def c1Agent : Nat → AgentRound := fun _ => ⟨.structured ⟨[]⟩, []⟩

/-- C1 witness: a concrete run with parseable date bounds yields a batch
satisfying the three postconditions. -/
theorem detectEvents_post_witness :
    (∀ e ∈ (⟨[]⟩ : EventList).events,
      (∃ d : SimpleDate, parseEventDate e.date = some d ∧
        dateLe ⟨2026, 2, 1⟩ d = true ∧ dateLe d ⟨2026, 2, 5⟩ = true) ∧
      c1Cfg.blockedEventIds.contains e.id = false) ∧
    (⟨[]⟩ : EventList).events.length ≤ c1Cfg.maxEvents :=
  detectEvents_post c1Cfg c1Agent ⟨[]⟩ ⟨2026, 2, 1⟩ ⟨2026, 2, 5⟩ rfl rfl rfl

/-- NIST FIPS 180-4 test vector certifying the SHA-256 embedding. -/
theorem sha256Hex_nist_vector :
    sha256Hex (utf8Encode "abc") =
      "ba7816bf8f01cfea414140de5dae2223b00361a396177a9cb410ff61f20015ad" := by
  decide

set_option maxRecDepth 16384 in
/-- A concrete digest id, equal to the value Python `hashlib` produces
for the key `hazard|2026-02-03|Tokyo|Storm|Move the museum visit to day 3`. -/
theorem eventDigestId_concrete :
    eventDigestId
      { id := "", category := "hazard", title := "Storm",
        location := "Tokyo", date := "2026-02-03", description := "d",
        rationale := "r", recommendation := "x",
        proposed_change := "Move the museum visit to day 3" } =
      "evt_7cc0b275473c" := by
  decide

end EventAgent
